import Mathlib

/-!
Verification development for the Vadose groundwater-flow code base.

The Python sources are shallowly embedded over the rationals: numpy
arrays become total functions from natural-number indices to rationals
(entries the code never writes stay at their initial value), fallible
constructors become functions into Except String, and external
collaborators (numpy linear solves, transcendental well functions,
np.hypot) are abstracted as explicit function parameters.  Matrices are
Mat = row index -> column index -> rational, vectors are Vec.
-/

def Vec : Type := ℕ → ℚ

def Mat : Type := ℕ → ℕ → ℚ

/-- Embedding of numpy array reshape to a (rows, cols) 2-D array:
entry (a, b) of the result is entry a*cols + b of the flat vector. -/
def npReshape (cols : ℕ) (v : Vec) : ℕ → ℕ → ℚ :=
  fun a b => v (a * cols + b)

/-- Embedding of numpy 2-D transpose. -/
def npTranspose (f : ℕ → ℕ → ℚ) : ℕ → ℕ → ℚ :=
  fun i j => f j i

/-- Embedding of ndarray.flatten() for a 2-D row-major array with `cols`
columns: entry k of the result is entry (k / cols, k % cols). -/
def npFlatten (cols : ℕ) (f : ℕ → ℕ → ℚ) : Vec :=
  fun k => f (k / cols) (k % cols)

/-- Embedding of np.diag of a vector. -/
def npDiag (v : Vec) : Mat :=
  fun r c => if r = c then v r else 0

/-- Scalar times matrix (numpy broadcasting). -/
def npSmulM (a : ℚ) (A : Mat) : Mat :=
  fun r c => a * A r c

/-- Elementwise matrix sum. -/
def npAddM (A B : Mat) : Mat :=
  fun r c => A r c + B r c

/-- Elementwise vector product (numpy `*` on 1-D arrays). -/
def npMulV (u v : Vec) : Vec :=
  fun k => u k * v k

/-- Elementwise vector sum. -/
def npAddV (u v : Vec) : Vec :=
  fun k => u k + v k

/-- Scalar times vector. -/
def npSmulV (a : ℚ) (v : Vec) : Vec :=
  fun k => a * v k

/-!
Pumping schedules, from backend/solvers/transient/pumping_schedule.py.
Each Python dataclass becomes a structure; its __post_init__ validation
becomes a `validate` function into Except String mirroring the raised
ValueError branches.  The sinusoidal evaluation uses math.sin and is not
needed by any claim, so only its construction-time validation is
embedded.
-/

structure ConstantSchedule where
  q : ℚ
deriving DecidableEq

structure StepSchedule where
  times : List ℚ
  rates : List ℚ
deriving DecidableEq

/-- Embedding of StepSchedule.__post_init__: the three ValueError
branches, in source order. -/
def StepSchedule.validate (s : StepSchedule) : Except String StepSchedule :=
  if s.times.length = 0 then
    .error "StepSchedule: times must not be empty"
  else if s.times.length ≠ s.rates.length then
    .error "StepSchedule: times and rates must have same length"
  else if (List.range (s.times.length - 1)).any
      (fun i => decide (s.times.getD (i + 1) 0 < s.times.getD i 0)) then
    .error "StepSchedule: times must be non-decreasing"
  else
    .ok s

/-- Embedding of the countdown loop in StepSchedule.__call__:
for i in range(n - 1, -1, -1): if t >= times[i]: return rates[i],
with the final fallback return rates[0]. -/
def StepSchedule.scan (times rates : List ℚ) (t : ℚ) : ℕ → ℚ
  | 0 => rates.getD 0 0
  | n + 1 => if times.getD n 0 ≤ t then rates.getD n 0
             else StepSchedule.scan times rates t n

/-- Embedding of StepSchedule.__call__. -/
def StepSchedule.call (s : StepSchedule) (t : ℚ) : ℚ :=
  if t ≤ s.times.getD 0 0 then s.rates.getD 0 0
  else StepSchedule.scan s.times s.rates t s.times.length

structure RampSchedule where
  t_start : ℚ
  t_end : ℚ
  Q_start : ℚ
  Q_end : ℚ
deriving DecidableEq

/-- Embedding of RampSchedule.__post_init__. -/
def RampSchedule.validate (s : RampSchedule) : Except String RampSchedule :=
  if s.t_end ≤ s.t_start then
    .error "RampSchedule: t_end must be greater than t_start"
  else
    .ok s

structure SinusoidalSchedule where
  Q_mean : ℚ
  Q_amp : ℚ
  period : ℚ
  phase : ℚ
deriving DecidableEq

/-- Embedding of SinusoidalSchedule.__post_init__. -/
def SinusoidalSchedule.validate (s : SinusoidalSchedule) :
    Except String SinusoidalSchedule :=
  if s.period ≤ 0 then
    .error "SinusoidalSchedule: period must be greater than 0"
  else
    .ok s

structure PulseSchedule where
  Q_on : ℚ
  Q_off : ℚ
  period : ℚ
  t_on : ℚ
  t_off : ℚ
deriving DecidableEq

/-- Embedding of PulseSchedule.__post_init__: the four ValueError
branches, in source order. -/
def PulseSchedule.validate (s : PulseSchedule) : Except String PulseSchedule :=
  if s.period ≤ 0 then
    .error "PulseSchedule: period must be greater than 0"
  else if ¬ (0 ≤ s.t_on ∧ s.t_on < s.period) then
    .error "PulseSchedule: 0 le t_on lt period required"
  else if ¬ (0 ≤ s.t_off ∧ s.t_off ≤ s.period) then
    .error "PulseSchedule: 0 le t_off le period required"
  else if s.t_off ≤ s.t_on then
    .error "PulseSchedule: t_off must be greater than t_on"
  else
    .ok s

/-- Result type of the make_schedule factory: one of the five schedule
dataclasses. -/
inductive Schedule where
  | constant (s : ConstantSchedule)
  | step (s : StepSchedule)
  | ramp (s : RampSchedule)
  | sinusoidal (s : SinusoidalSchedule)
  | pulse (s : PulseSchedule)
deriving DecidableEq

/-- Embedding of the schedule config dict consumed by make_schedule.
Keys the factory reads through dict.get become Option fields (a missing
required key raises KeyError in Python, which make_schedule catches). -/
structure ScheduleConfig where
  type : String
  Q : Option ℚ
  times : List ℚ
  rates : List ℚ
  t_start : Option ℚ
  t_end : Option ℚ
  Q_start : Option ℚ
  Q_end : Option ℚ
  Q_mean : Option ℚ
  Q_amp : Option ℚ
  period : Option ℚ
  phase : Option ℚ
  Q_on : Option ℚ
  Q_off : Option ℚ
  t_on : Option ℚ
  t_off : Option ℚ

/-- Embedding of the Python str.lower() normalization applied to the
type tags (String.toLower itself does not reduce in the kernel, so the
equivalent list-based map is used). -/
def pyLower (s : String) : String := String.mk (s.data.map Char.toLower)

/-- Embedding of make_schedule.  The whole construction is wrapped in a
try/except catching KeyError, TypeError and ValueError, so every failed
lookup or failed dataclass validation falls back to
ConstantSchedule(default_q); the factory itself never raises. -/
def make_schedule (config : Option ScheduleConfig) (default_q : ℚ) : Schedule :=
  match config with
  | none => .constant ⟨default_q⟩
  | some cfg =>
    let fallback : Schedule := .constant ⟨default_q⟩
    let ty := pyLower cfg.type
    if ty = "constant" then
      .constant ⟨cfg.Q.getD default_q⟩
    else if ty = "step" then
      match StepSchedule.validate ⟨cfg.times, cfg.rates⟩ with
      | .ok s => .step s
      | .error _ => fallback
    else if ty = "ramp" then
      match cfg.t_start, cfg.t_end with
      | some a, some b =>
        match RampSchedule.validate ⟨a, b, cfg.Q_start.getD default_q, cfg.Q_end.getD default_q⟩ with
        | .ok s => .ramp s
        | .error _ => fallback
      | _, _ => fallback
    else if ty = "sinusoidal" then
      match cfg.Q_amp, cfg.period with
      | some amp, some per =>
        match SinusoidalSchedule.validate ⟨cfg.Q_mean.getD default_q, amp, per, cfg.phase.getD 0⟩ with
        | .ok s => .sinusoidal s
        | .error _ => fallback
      | _, _ => fallback
    else if ty = "pulse" then
      match cfg.period, cfg.t_on, cfg.t_off with
      | some per, some a, some b =>
        match PulseSchedule.validate ⟨cfg.Q_on.getD default_q, cfg.Q_off.getD 0, per, a, b⟩ with
        | .ok s => .pulse s
        | .error _ => fallback
      | _, _, _ => fallback
    else
      fallback

/-!
Boundary conditions for the transient solver, from
backend/solvers/transient/boundary_conditions/.  Loops that assign numpy
rows/entries become folds updating the total functions.
-/

structure DirichletBC where
  cells : List ℕ
  head_value : ℚ

/-- Loop body of DirichletBC.apply for one target cell: zero the row,
set the diagonal to 1 and the RHS entry to the prescribed head. -/
def dirichletStep (value : ℚ) (Ab : Mat × Vec) (idx : ℕ) : Mat × Vec :=
  (fun r c => if r = idx then (if c = idx then 1 else 0) else Ab.1 r c,
   fun r => if r = idx then value else Ab.2 r)

/-- Embedding of DirichletBC.apply: the loop over the target cells. -/
def DirichletBC.apply (bc : DirichletBC) (A : Mat) (b : Vec) : Mat × Vec :=
  bc.cells.foldl (dirichletStep bc.head_value) (A, b)

/-- RiverBC from river.py.  The Python constructor signature is
RiverBC(self, cells, conductance, river_stage), storing C = conductance
and stage = river_stage. -/
structure RiverBC where
  cells : List ℕ
  C : ℚ
  stage : ℚ

/-- Loop body of RiverBC.apply for one target cell: add C to the
diagonal entry and C * stage to the RHS entry. -/
def riverStep (C stage : ℚ) (Ab : Mat × Vec) (idx : ℕ) : Mat × Vec :=
  (fun r c => if r = idx ∧ c = idx then Ab.1 r c + C else Ab.1 r c,
   fun r => if r = idx then Ab.2 r + C * stage else Ab.2 r)

/-- Embedding of RiverBC.apply: the loop over the target cells. -/
def RiverBC.apply (bc : RiverBC) (A : Mat) (b : Vec) : Mat × Vec :=
  bc.cells.foldl (riverStep bc.C bc.stage) (A, b)

/-- Keyword parameter names of RiverBC.__init__ (besides self), in
source order. -/
def RiverBC.init_params : List String := ["cells", "conductance", "river_stage"]

/-- Keyword argument names used by the river branch of BCFactory.create:
RiverBC(cells=..., stage=..., conductance=...). -/
def BCFactory.river_call_kwargs : List String := ["cells", "stage", "conductance"]

/-- Python keyword binding: a call succeeds only when every keyword
argument names a declared parameter; otherwise it raises TypeError. -/
def kwargs_accepted (params kwargs : List String) : Bool :=
  kwargs.all (fun k => params.contains k)

/-- Embedding of the river branch of BCFactory.create.  The factory
binds its arguments by keyword; since the constructor has no parameter
named stage, the call raises TypeError before any RiverBC exists. -/
def BCFactory.create_river (cells : List ℕ) (stage conductance : ℚ) :
    Except String RiverBC :=
  if kwargs_accepted RiverBC.init_params BCFactory.river_call_kwargs then
    .ok ⟨cells, conductance, stage⟩
  else
    .error "TypeError: RiverBC.init got an unexpected keyword argument stage"

/-!
Backward-Euler time integrator, from
backend/solvers/transient/time_stepper.py.  model.storage is the flat
per-cell storage vector the orchestrator recomputed (its .flatten() is
the identity on a 1-D array); h_old is the 2-D head field with ny
columns.
-/

/-- Embedding of ImplicitEulerStepper.build_system:
A_eff = dt*A + diag(C) and b = C*h_old.flatten() + dt*W.flatten(). -/
def ImplicitEulerStepper.build_system (storage : Vec) (h_old : ℕ → ℕ → ℚ)
    (dt : ℚ) (A : Mat) (W : Vec) (ny : ℕ) : Mat × Vec :=
  let C := storage
  (npAddM (npSmulM dt A) (npDiag C),
   npAddV (npMulV C (npFlatten ny h_old)) (npSmulV dt W))

/-!
Transient conductance-matrix assembly, from
backend/solvers/transient/matrix_assembly.py.  The assembler reads
model.nx, model.ny, model.dx, model.dy, model.transmissivity and
model.active; those attributes form MAModel.  The Python double loop
writes each matrix row k = i*ny + j exactly once, so the matrix is
embedded entrywise: row index k decodes to i = k / ny, j = k % ny.
-/

structure MAModel where
  nx : ℕ
  ny : ℕ
  dx : ℚ
  dy : ℚ
  T : ℕ → ℕ → ℚ
  active : ℕ → ℕ → Bool

/-- Embedding of MatrixAssembly.build_conductance_matrix.  Off-diagonal
entries get minus the inter-cell conductance (2*T1*T2)/(T1+T2)/d2 for
each in-range active neighbor; the diagonal accumulates the same four
conductances (a conductance is 0 when its guard fails). -/
def MatrixAssembly.build_conductance_matrix (m : MAModel) : Mat :=
  fun k l =>
    if k < m.nx * m.ny then
      let i := k / m.ny
      let j := k % m.ny
      if m.active i j then
        let dx2 := m.dx * m.dx
        let dy2 := m.dy * m.dy
        let cw := if 0 < i ∧ m.active (i - 1) j then
            (2 * m.T i j * m.T (i - 1) j) / (m.T i j + m.T (i - 1) j) / dx2 else 0
        let ce := if i < m.nx - 1 ∧ m.active (i + 1) j then
            (2 * m.T i j * m.T (i + 1) j) / (m.T i j + m.T (i + 1) j) / dx2 else 0
        let cs := if 0 < j ∧ m.active i (j - 1) then
            (2 * m.T i j * m.T i (j - 1)) / (m.T i j + m.T i (j - 1)) / dy2 else 0
        let cn := if j < m.ny - 1 ∧ m.active i (j + 1) then
            (2 * m.T i j * m.T i (j + 1)) / (m.T i j + m.T i (j + 1)) / dy2 else 0
        if l = k then cw + ce + cs + cn
        else if 0 < i ∧ m.active (i - 1) j ∧ l = (i - 1) * m.ny + j then -cw
        else if i < m.nx - 1 ∧ m.active (i + 1) j ∧ l = (i + 1) * m.ny + j then -ce
        else if 0 < j ∧ m.active i (j - 1) ∧ l = i * m.ny + (j - 1) then -cs
        else if j < m.ny - 1 ∧ m.active i (j + 1) ∧ l = i * m.ny + (j + 1) then -cn
        else 0
      else 0
    else 0

/-!
Steady-state pipeline, from backend/solvers/steady_state/ and
backend/core/well.py.  Grid spacings dx, dy live on the Grid object but
are never read by assemble_matrix; they are kept in the model structure
to state spacing-dependent properties.  Constant-head boundaries are
embedded in their per-cell form (i, j, value), the shape produced by
expand_location_boundaries.
-/

structure SSProps where
  Kx : ℕ → ℕ → ℚ
  Ky : ℕ → ℕ → ℚ
  thickness0 : ℚ
  confined : Bool

structure SSWell where
  i : ℕ
  j : ℕ
  rate : ℚ

structure SSModel where
  nx : ℕ
  ny : ℕ
  dx : ℚ
  dy : ℚ
  props : SSProps
  boundaries : List (ℕ × ℕ × ℚ)
  wells : List SSWell

/-- Embedding of Well.get_rhs_contribution: a zero vector with the
well rate added at flat index j*nx + i. -/
def Well.get_rhs_contribution (w : SSWell) (nx : ℕ) : Vec :=
  fun idx => if idx = w.j * nx + w.i then w.rate else 0

/-- Embedding of _constant_head_value: the value of the first
CONSTANT_HEAD record at (i, j), if any. -/
def constant_head_value (boundaries : List (ℕ × ℕ × ℚ)) (i j : ℕ) : Option ℚ :=
  (boundaries.find? (fun bc => bc.1 = i ∧ bc.2.1 = j)).map (fun bc => bc.2.2)

/-- Saturated thickness used by assemble_matrix: the base layer
thickness when confined, else max(head_prev - bottom, 0.1) with the
placeholder bottom elevation 0. -/
def ssThickness (m : SSModel) (head_prev : ℕ → ℕ → ℚ) (i j : ℕ) : ℚ :=
  if m.props.confined then m.props.thickness0
  else max (head_prev i j - 0) (1 / 10)

/-- Embedding of _trans_x: harmonic transmissivity between (i, j) and
the x-neighbor inbr (an integer, so the out-of-range guards match the
Python signed comparison), 0 at the boundary or at non-positive
saturated thickness. -/
def trans_x (m : SSModel) (th : ℕ → ℕ → ℚ) (i j : ℕ) (inbr : ℤ) : ℚ :=
  if inbr < 0 ∨ (m.nx : ℤ) ≤ inbr then 0
  else
    let K1 := m.props.Kx i j
    let K2 := m.props.Kx inbr.toNat j
    let t1 := th i j
    let t2 := th inbr.toNat j
    if t1 ≤ 0 ∨ t2 ≤ 0 then 0
    else 2 / (1 / (K1 * t1) + 1 / (K2 * t2))

/-- Embedding of _trans_y, the y-direction analogue of trans_x. -/
def trans_y (m : SSModel) (th : ℕ → ℕ → ℚ) (i j : ℕ) (jnbr : ℤ) : ℚ :=
  if jnbr < 0 ∨ (m.ny : ℤ) ≤ jnbr then 0
  else
    let K1 := m.props.Ky i j
    let K2 := m.props.Ky i jnbr.toNat
    let t1 := th i j
    let t2 := th i jnbr.toNat
    if t1 ≤ 0 ∨ t2 ≤ 0 then 0
    else 2 / (1 / (K1 * t1) + 1 / (K2 * t2))

/-- Matrix part of assemble_matrix.  The double loop writes row
row = j*nx + i exactly once per cell, so the matrix is embedded
entrywise with i = r % nx, j = r / nx.  A constant-head cell gets an
identity row; otherwise the diagonal is the sum of the four neighbor
transmissivities and each in-range neighbor column gets minus its
transmissivity (columns r-1, r+1, r-nx, r+nx). -/
def assemble_matrix_A (m : SSModel) (head_prev : ℕ → ℕ → ℚ) : Mat :=
  fun r c =>
    if r < m.nx * m.ny then
      let i := r % m.nx
      let j := r / m.nx
      match constant_head_value m.boundaries i j with
      | some _ => if c = r then 1 else 0
      | none =>
        let th := ssThickness m head_prev
        let tx_w := trans_x m th i j ((i : ℤ) - 1)
        let tx_e := trans_x m th i j ((i : ℤ) + 1)
        let ty_s := trans_y m th i j ((j : ℤ) - 1)
        let ty_n := trans_y m th i j ((j : ℤ) + 1)
        if c = r then tx_w + tx_e + ty_s + ty_n
        else if 0 < i ∧ c + 1 = r then -tx_w
        else if i < m.nx - 1 ∧ c = r + 1 then -tx_e
        else if 0 < j ∧ c + m.nx = r then -ty_s
        else if j < m.ny - 1 ∧ c = r + m.nx then -ty_n
        else 0
    else 0

/-- Constant-head part of the RHS vector built by assemble_matrix. -/
def assemble_matrix_b_ch (m : SSModel) : Vec :=
  fun r =>
    if r < m.nx * m.ny then
      match constant_head_value m.boundaries (r % m.nx) (r / m.nx) with
      | some v => v
      | none => 0
    else 0

/-- Well part of the RHS vector: b += well.get_rhs_contribution(nx, ny)
for every well (added unconditionally, also on constant-head rows). -/
def assemble_matrix_b_wells (m : SSModel) : Vec :=
  fun r => (m.wells.map (fun w => Well.get_rhs_contribution w m.nx r)).sum

/-- RHS vector of assemble_matrix. -/
def assemble_matrix_b (m : SSModel) : Vec :=
  fun r => assemble_matrix_b_ch m r + assemble_matrix_b_wells m r

/-- Embedding of solve_direct: scipy.sparse.linalg.spsolve is an
external collaborator, passed in as `spsolve`; the flat solution is
reshaped to (ny, nx) and transposed. -/
def solve_direct (spsolve : Mat → Vec → Vec) (A : Mat) (b : Vec)
    (nx : ℕ) : ℕ → ℕ → ℚ :=
  npTranspose (npReshape nx (spsolve A b))

/-!
SOR iterative solver, from backend/solvers/steady_state/
solver_iterative.py, with the default parameters used by the interface:
w = 1.4, max_iter = 3000, tol = 1e-6.  The CSR row traversal becomes a
dense row sum (an unstored CSR entry and a stored zero both contribute
zero, and a missing diagonal and a stored tiny diagonal are both caught
by the |diag| < 1e-20 skip).
-/

/-- Single Gauss-Seidel/SOR update of row r (skipped for a near-zero
diagonal). -/
def sorUpdateRow (A : Mat) (b : Vec) (N : ℕ) (w : ℚ) (h : Vec) (r : ℕ) : Vec :=
  let diag := A r r
  if |diag| < 1 / 10 ^ 20 then h
  else
    let s := ∑ c ∈ Finset.range N, if c ≠ r then A r c * h c else 0
    let hgs := (b r - s) / diag
    fun x => if x = r then (1 - w) * h x + w * hgs else h x

/-- Sequential sweep over rows 0, 1, ..., n-1 (Gauss-Seidel order: row
r sees the already-updated values of rows below it). -/
def sorSweep (A : Mat) (b : Vec) (N : ℕ) (w : ℚ) : ℕ → Vec → Vec
  | 0, h => h
  | n + 1, h => sorUpdateRow A b N w (sorSweep A b N w n h) n

/-- Infinity norm over the first N entries (np.linalg.norm(., ord=inf)
of a length-N vector). -/
def infNorm (N : ℕ) (v : Vec) : ℚ :=
  (Finset.range N).fold max 0 (fun r => |v r|)

/-- Iteration loop of solve_iterative, counting down from max_iter:
sweep, then stop as soon as the step-to-step infinity norm falls below
tol.  Returns the flat head, the iteration count and the convergence
flag. -/
def sorLoop (A : Mat) (b : Vec) (N : ℕ) (w tol : ℚ) (maxIter : ℕ) :
    ℕ → Vec → Vec × ℕ × Bool
  | 0, h => (h, maxIter, false)
  | f + 1, h =>
    let h2 := sorSweep A b N w N h
    if infNorm N (fun r => h2 r - h r) < tol then (h2, maxIter - f, true)
    else sorLoop A b N w tol maxIter f h2

/-- Flat-vector core of solve_iterative with the default parameters
(initial guess h = 0). -/
def solve_iterative_flat (A : Mat) (b : Vec) (nx ny : ℕ) : Vec × ℕ × Bool :=
  sorLoop A b (nx * ny) (7 / 5) (1 / 10 ^ 6) 3000 3000 (fun _ => 0)

/-- Embedding of solve_iterative: the flat result reshaped to (ny, nx)
and transposed, with iteration count and convergence flag. -/
def solve_iterative (A : Mat) (b : Vec) (nx ny : ℕ) :
    (ℕ → ℕ → ℚ) × ℕ × Bool :=
  let res := solve_iterative_flat A b nx ny
  (npTranspose (npReshape nx res.1), res.2.1, res.2.2)

/-!
Steady-state solver interface, from
backend/solvers/steady_state/interface.py.  spsolve (scipy) and
np.linalg.norm (a Euclidean norm, irrational in general) are external
collaborators passed as parameters.  The hard-coded loop controls are
max_outer_iter = 20 and tol_outer = 1e-4.
-/

structure SSResult where
  converged : Bool
  iterations : Option ℕ
  method : String
  head : ℕ → ℕ → ℚ
  residual_norm : ℚ
  notes : String

/-- Embedding of SteadyStateSolver._initial_head_guess: uniform 10, or
the average of the constant-head boundary values if any exist. -/
def initial_head_guess (m : SSModel) : ℕ → ℕ → ℚ :=
  let ch_values := m.boundaries.map (fun bc => bc.2.2)
  if ch_values.isEmpty then fun _ _ => 10
  else fun _ _ => ch_values.sum / ch_values.length

/-- Head computed by one outer iteration of SteadyStateSolver.solve:
assemble with the current head estimate, then solve with the selected
method. -/
def ss_step_head (spsolve : Mat → Vec → Vec) (m : SSModel) (method : String)
    (head_prev : ℕ → ℕ → ℚ) : ℕ → ℕ → ℚ :=
  let A := assemble_matrix_A m head_prev
  let b := assemble_matrix_b m
  if method = "direct" then solve_direct spsolve A b m.nx
  else (solve_iterative A b m.nx m.ny).1

/-- Diagnostics recorded by one outer iteration: iteration count,
reported residual norm and notes string, per method. -/
def ss_step_diag (norm2 : Vec → ℚ) (m : SSModel) (method : String)
    (head_prev : ℕ → ℕ → ℚ) : Option ℕ × ℚ × String :=
  if method = "direct" then (none, 0, "Direct LU decomposition completed.")
  else
    let A := assemble_matrix_A m head_prev
    let b := assemble_matrix_b m
    let res := solve_iterative A b m.nx m.ny
    let flatNew := npFlatten m.ny res.1
    let resid := norm2
      (fun r => (∑ c ∈ Finset.range (m.nx * m.ny), A r c * flatNew c) - b r)
    (some res.2.1, resid, "SOR iteration completed.")

/-- Embedding of np.max(np.abs(f - g)) over an (nx, ny) array. -/
def diff2D (nx ny : ℕ) (f g : ℕ → ℕ → ℚ) : ℚ :=
  (Finset.range (nx * ny)).fold max 0
    (fun k => |f (k / ny) (k % ny) - g (k / ny) (k % ny)|)

structure SSCore where
  converged : Bool
  head : ℕ → ℕ → ℚ
  iterations : Option ℕ
  residual : ℚ
  notes : String

/-- Embedding of the outer BCF loop of SteadyStateSolver.solve, with
fuel counting the remaining allowed iterations (started at 20).  Each
call performs one iteration; the loop breaks with converged = true when
the head change falls below tol_outer, and the for-else branch returns
the last computed head with converged = false when fuel runs out.  The
fuel-0 base case is unreachable from solve since max_outer_iter = 20. -/
def ss_outer_loop (spsolve : Mat → Vec → Vec) (norm2 : Vec → ℚ)
    (m : SSModel) (method : String) : ℕ → (ℕ → ℕ → ℚ) → SSCore
  | 0, head_prev => ⟨false, head_prev, none, 0, ""⟩
  | f + 1, head_prev =>
    let head_new := ss_step_head spsolve m method head_prev
    let diag := ss_step_diag norm2 m method head_prev
    let diff := diff2D m.nx m.ny head_new head_prev
    if diff < 1 / 10 ^ 4 then ⟨true, head_new, diag.1, diag.2.1, diag.2.2⟩
    else if f = 0 then ⟨false, head_new, diag.1, diag.2.1, diag.2.2⟩
    else ss_outer_loop spsolve norm2 m method f head_new

/-- Embedding of SteadyStateSolver.solve.  The only raise is the
unknown-method ValueError; every numerical outcome, converged or not,
is delivered through the returned result record. -/
def SteadyStateSolver.solve (spsolve : Mat → Vec → Vec) (norm2 : Vec → ℚ)
    (m : SSModel) (method : String) : Except String SSResult :=
  let meth := pyLower method
  if ¬ (meth = "direct" ∨ meth = "sor") then
    .error "Unknown solver method"
  else
    let core := ss_outer_loop spsolve norm2 m meth 20 (initial_head_guess m)
    .ok ⟨core.converged, core.iterations, meth, core.head, core.residual, core.notes⟩

/-- Trajectory of the outer loop: head estimate after n outer
iterations, starting from the initial guess. -/
def ss_iterate (spsolve : Mat → Vec → Vec) (m : SSModel) (method : String) :
    ℕ → (ℕ → ℕ → ℚ)
  | 0 => initial_head_guess m
  | n + 1 => ss_step_head spsolve m method (ss_iterate spsolve m method n)

/-!
Theis perimeter boundary condition, from
backend/solvers/transient/boundary_conditions/theis_dirichlet.py and
backend/validation/theis.py.  The well-function value (series with
log, irrational) is abstracted as the parameter wval, and np.hypot as
the parameter hypot; the two ValueError guards of theis_drawdown are
embedded exactly.
-/

/-- Embedding of theis_drawdown: the t <= 0 and r <= 0 ValueError
branches, then the drawdown value (Q / (4 pi T)) * W(u), abstracted as
wval Q T S r t. -/
def theis_drawdown (wval : ℚ → ℚ → ℚ → ℚ → ℚ → ℚ)
    (Q T S r t : ℚ) : Except String ℚ :=
  if t ≤ 0 then .error "time t must be greater than 0"
  else if r ≤ 0 then .error "distance r must be greater than 0"
  else .ok (wval Q T S r t)

structure TheisDirichletBC where
  cells : List ℕ
  cell_coords : List (ℤ × ℤ)
  wells : List (ℤ × ℤ × ℚ)
  T : ℚ
  S : ℚ
  dx : ℚ
  dy : ℚ
  head0 : ℚ
  current_heads : List ℚ

/-- Drawdown summed over the wells at one boundary coordinate: for
each well, r = hypot((i - wi)*dx, (j - wj)*dy), r_eff = max(r,
0.5*min(dx, dy)), accumulating theis_drawdown(|Q|, T, S, r_eff, t). -/
def TheisDirichletBC.cell_drawdown (hypot : ℚ → ℚ → ℚ)
    (wval : ℚ → ℚ → ℚ → ℚ → ℚ → ℚ) (bc : TheisDirichletBC)
    (t : ℚ) (ij : ℤ × ℤ) : Except String ℚ :=
  bc.wells.foldlM
    (fun acc well =>
      let rx := ((ij.1 - well.1 : ℤ) : ℚ) * bc.dx
      let ry := ((ij.2 - well.2.1 : ℤ) : ℚ) * bc.dy
      let r := hypot rx ry
      let r_eff := max r (1 / 2 * min bc.dx bc.dy)
      do
        let d ← theis_drawdown wval |well.2.2| bc.T bc.S r_eff t
        pure (acc + d))
    0

/-- Embedding of TheisDirichletBC.update: at t <= 0 every boundary head
is reset to head0 without consulting theis_drawdown; otherwise each
boundary coordinate gets head0 minus its summed drawdown. -/
def TheisDirichletBC.update (hypot : ℚ → ℚ → ℚ)
    (wval : ℚ → ℚ → ℚ → ℚ → ℚ → ℚ) (bc : TheisDirichletBC) (t : ℚ) :
    Except String TheisDirichletBC :=
  if t ≤ 0 then
    .ok { bc with current_heads := List.replicate bc.cells.length bc.head0 }
  else do
    let heads ← bc.cell_coords.mapM
      (fun ij => do
        let d ← TheisDirichletBC.cell_drawdown hypot wval bc t ij
        pure (bc.head0 - d))
    pure { bc with current_heads := heads }

/-!
Transient orchestrator, from
backend/solvers/transient/transient_solver.py and
backend/models/transient_model.py.  Boundary-condition objects are
duck-typed in Python (an optional update(t) mutating internal state,
then apply(A, b)); they are embedded as records carrying their own
state type.  np.linalg.solve is the external parameter linSolve.
TransientSolver.run calls SourceSink.build_W_vector and
Storage.compute_storage, neither of which exists in the sources; both
are modelled from the spec below.  BudgetEngine.summarize does exist
and takes no arguments beyond self, yet run calls it with five
positional arguments, so the periodic mass-balance print raises
TypeError; the embedding returns that error at the corresponding
program point.
-/

structure BCObj where
  σ : Type
  st : σ
  upd : Option (ℚ → σ → σ)
  app : σ → Mat → Vec → Mat × Vec

structure TWell where
  i : ℕ
  j : ℕ
  Qt : ℚ → ℚ

structure TransientModel where
  nx : ℕ
  ny : ℕ
  dx : ℚ
  dy : ℚ
  T : ℚ
  S : ℚ
  h0 : ℕ → ℕ → ℚ
  active : ℕ → ℕ → Bool
  wells : List TWell
  recharge : Option (ℚ → ℕ → ℕ → ℚ)
  boundary_conditions : List BCObj

/-- Attribute view consumed by MatrixAssembly: model.transmissivity is
the constant field np.full((nx, ny), T) and model.active the mask. -/
def TransientModel.asMAModel (m : TransientModel) : MAModel :=
  ⟨m.nx, m.ny, m.dx, m.dy, fun _ _ => m.T, m.active⟩

/-- Modelled from the spec: Storage.compute_storage is called by
TransientSolver.run (line 67) but is defined nowhere in the sources
(storage.py only provides the instance method vector()).  Spec section
4.2: a per-cell vector, the storativity for a confined aquifer
(TransientModel fixes aquifer_type = confined and holds the volumetric
storage coefficient S directly), zeroed at inactive cells, recomputed
from the most recent head. -/
def Storage.compute_storage (m : TransientModel) (_h : ℕ → ℕ → ℚ) : Vec :=
  fun k => if m.active (k / m.ny) (k % m.ny) then m.S else 0

/-- Modelled from the spec: SourceSink.build_W_vector is called by
TransientSolver.run (line 62) but is defined nowhere in the sources
(source_sink.py only provides the instance method vector_at_time).
Spec section 4.3: wells resolved to their cell index (transient
convention i*ny + j) contribute their schedule rate at time t,
accumulating additively; recharge flux-per-area is converted to a
volumetric rate by the cell area. -/
def SourceSink.build_W_vector (m : TransientModel) (t : ℚ) : Vec :=
  fun k =>
    m.wells.foldl
      (fun acc w => if w.i * m.ny + w.j = k then acc + w.Qt t else acc) 0
    + match m.recharge with
      | none => 0
      | some R => R t (k / m.ny) (k % m.ny) * m.dx * m.dy

/-- One pass over model.boundary_conditions: each object with an update
method is updated at the given time (its new state persists), then its
apply transforms (A, b). -/
def applyBCs (t : ℚ) : List BCObj → Mat → Vec → List BCObj × Mat × Vec
  | [], A, b => ([], A, b)
  | bc :: rest, A, b =>
    let st2 := match bc.upd with
      | some u => u t bc.st
      | none => bc.st
    let Ab := bc.app st2 A b
    let tail := applyBCs t rest Ab.1 Ab.2
    (⟨bc.σ, st2, bc.upd, bc.app⟩ :: tail.1, tail.2.1, tail.2.2)

structure LogEntry where
  time : ℚ
  dt : ℚ
  iteration : ℕ
  note : String

/-- Loop body state of TransientSolver.run threaded between steps. -/
structure RunState where
  t : ℚ
  step : ℕ
  bcs : List BCObj
  h : ℕ → ℕ → ℚ
  heads : List (ℕ → ℕ → ℚ)
  logs : List LogEntry

/-- Embedding of the while-loop of TransientSolver.run.  Each pass
assembles the conductance matrix, builds the source/sink vector at the
current time, recomputes model.storage, asks the time stepper for
(A_eff, b), updates and applies every boundary condition at t + dt,
and solves the linear system.  Then, since step % 10 == 0 holds at
step 0, the mass-balance print calls BudgetEngine.summarize with five
arguments while the method accepts none: the run stops with TypeError
there.  Fuel bounds the number of passes; run supplies enough fuel for
every terminating run (the loop itself never terminates for dt <= 0,
where the fuel-0 case cuts the embedding off with the state collected
so far). -/
def TransientSolver.runAux (linSolve : Mat → Vec → Vec) (m : TransientModel)
    (t_end dt : ℚ) : ℕ → RunState →
    Except String (List (ℕ → ℕ → ℚ) × List LogEntry)
  | 0, s => .ok (s.heads, s.logs)
  | fuel + 1, s =>
    if s.t < t_end then
      let A := MatrixAssembly.build_conductance_matrix m.asMAModel
      let W := SourceSink.build_W_vector m s.t
      let storage := Storage.compute_storage m s.h
      let sys := ImplicitEulerStepper.build_system storage s.h dt A W m.ny
      let applied := applyBCs (s.t + dt) s.bcs sys.1 sys.2
      let h_new_vec := linSolve applied.2.1 applied.2.2
      let h_new := npReshape m.ny h_new_vec
      if s.step % 10 = 0 then
        .error "TypeError: summarize() takes 1 positional argument but 6 were given"
      else
        TransientSolver.runAux linSolve m t_end dt fuel
          ⟨s.t + dt, s.step + 1, applied.1, h_new,
           s.heads ++ [h_new],
           s.logs ++ [⟨s.t, dt, s.step, "Transient step completed"⟩]⟩
    else .ok (s.heads, s.logs)

/-- Embedding of TransientSolver.run: start from h = h0 with
heads = [h0], empty logs, t = t_start, step = 0. -/
def TransientSolver.run (linSolve : Mat → Vec → Vec) (m : TransientModel)
    (t_start t_end dt : ℚ) :
    Except String (List (ℕ → ℕ → ℚ) × List LogEntry) :=
  TransientSolver.runAux linSolve m t_end dt
    (⌈(t_end - t_start) / dt⌉₊ + 1)
    ⟨t_start, 0, m.boundary_conditions, m.h0, [m.h0], []⟩

/-!
Theorems.  Fold characterizations for the two boundary-condition loops
come first, then the claim theorems.
-/

lemma dirichlet_foldl_fst (value : ℚ) (cells : List ℕ) :
    ∀ (A : Mat) (b : Vec) (r c : ℕ),
      (cells.foldl (dirichletStep value) (A, b)).1 r c
        = if r ∈ cells then (if c = r then 1 else 0) else A r c := by
  induction cells with
  | nil => intro A b r c; simp
  | cons x xs ih =>
    intro A b r c
    simp only [List.foldl_cons, dirichletStep, ih, List.mem_cons]
    by_cases hr : r ∈ xs
    · simp [hr]
    · by_cases hx : r = x
      · subst hx; simp [hr]
      · simp [hr, hx]

lemma dirichlet_foldl_snd (value : ℚ) (cells : List ℕ) :
    ∀ (A : Mat) (b : Vec) (r : ℕ),
      (cells.foldl (dirichletStep value) (A, b)).2 r
        = if r ∈ cells then value else b r := by
  induction cells with
  | nil => intro A b r; simp
  | cons x xs ih =>
    intro A b r
    simp only [List.foldl_cons, dirichletStep, ih, List.mem_cons]
    by_cases hr : r ∈ xs
    · simp [hr]
    · by_cases hx : r = x
      · subst hx; simp [hr]
      · simp [hr, hx]

lemma river_foldl_fst (C stage : ℚ) (cells : List ℕ) :
    ∀ (A : Mat) (b : Vec) (r c : ℕ),
      (cells.foldl (riverStep C stage) (A, b)).1 r c
        = A r c + (if c = r then (cells.count r : ℚ) * C else 0) := by
  induction cells with
  | nil => intro A b r c; simp
  | cons x xs ih =>
    intro A b r c
    simp only [List.foldl_cons, riverStep, ih, List.count_cons]
    by_cases hc : c = r
    · subst hc
      by_cases hx : c = x
      · subst hx; simp; ring
      · simp [hx, Ne.symm hx]
    · by_cases hx : r = x ∧ c = x
      · exact absurd (hx.2.trans hx.1.symm) hc
      · simp [hx, hc]

lemma river_foldl_snd (C stage : ℚ) (cells : List ℕ) :
    ∀ (A : Mat) (b : Vec) (r : ℕ),
      (cells.foldl (riverStep C stage) (A, b)).2 r
        = b r + (cells.count r : ℚ) * (C * stage) := by
  induction cells with
  | nil => intro A b r; simp
  | cons x xs ih =>
    intro A b r
    simp only [List.foldl_cons, riverStep, ih, List.count_cons]
    by_cases hx : r = x
    · subst hx; simp; ring
    · simp [hx, Ne.symm hx]

/-- C4: the Backward-Euler integrator returns exactly
A_eff = dt*A + diag(C) and b = C*h_prev + dt*W, elementwise over the
flattened fields, where C is the storage coefficient vector. -/
theorem implicit_euler_build_system_spec (storage : Vec) (h_old : ℕ → ℕ → ℚ)
    (dt : ℚ) (A : Mat) (W : Vec) (ny r c k : ℕ) :
    (ImplicitEulerStepper.build_system storage h_old dt A W ny).1 r c
      = dt * A r c + (if r = c then storage r else 0)
    ∧ (ImplicitEulerStepper.build_system storage h_old dt A W ny).2 k
      = storage k * npFlatten ny h_old k + dt * W k := by
  constructor <;>
    simp [ImplicitEulerStepper.build_system, npAddM, npSmulM, npDiag,
      npAddV, npMulV, npSmulV]

/-- C7: one Dirichlet apply turns each target row into an identity row
with the prescribed head on the RHS, leaves every other row of A and b
unchanged, and applying it a second time to the result changes
nothing. -/
theorem dirichlet_apply_rows_idempotent (bc : DirichletBC) (A : Mat) (b : Vec) :
    (∀ r ∈ bc.cells, (∀ c, (bc.apply A b).1 r c = if c = r then 1 else 0)
      ∧ (bc.apply A b).2 r = bc.head_value)
    ∧ (∀ r, r ∉ bc.cells →
        (∀ c, (bc.apply A b).1 r c = A r c) ∧ (bc.apply A b).2 r = b r)
    ∧ bc.apply (bc.apply A b).1 (bc.apply A b).2 = bc.apply A b := by
  refine ⟨?_, ?_, ?_⟩
  · intro r hr
    constructor
    · intro c
      simp [DirichletBC.apply, dirichlet_foldl_fst, hr]
    · simp [DirichletBC.apply, dirichlet_foldl_snd, hr]
  · intro r hr
    constructor
    · intro c
      simp [DirichletBC.apply, dirichlet_foldl_fst, hr]
    · simp [DirichletBC.apply, dirichlet_foldl_snd, hr]
  · apply Prod.ext
    · funext r c
      simp only [DirichletBC.apply, dirichlet_foldl_fst]
      by_cases hr : r ∈ bc.cells <;> simp [hr]
    · funext r
      simp only [DirichletBC.apply, dirichlet_foldl_snd]
      by_cases hr : r ∈ bc.cells <;> simp [hr]

/-- C3: the river branch of BCFactory.create raises TypeError for every
river config, because it passes the keyword stage to a constructor
whose parameter is named river_stage; the intended behavior (add C to
each target diagonal and C * stage to the RHS, all other entries
untouched) does hold for RiverBC.apply itself when the object is built
positionally. -/
theorem river_factory_typeerror_apply_ok :
    (∀ (cells : List ℕ) (stage conductance : ℚ),
      BCFactory.create_river cells stage conductance
        = .error "TypeError: RiverBC.init got an unexpected keyword argument stage")
    ∧ (∀ (cells : List ℕ) (C stage : ℚ) (A : Mat) (b : Vec) (r : ℕ),
        r ∈ cells → cells.Nodup →
        (RiverBC.apply ⟨cells, C, stage⟩ A b).1 r r = A r r + C
        ∧ (RiverBC.apply ⟨cells, C, stage⟩ A b).2 r = b r + C * stage)
    ∧ (∀ (cells : List ℕ) (C stage : ℚ) (A : Mat) (b : Vec) (r c : ℕ),
        c ≠ r →
        (RiverBC.apply ⟨cells, C, stage⟩ A b).1 r c = A r c)
    ∧ (∀ (cells : List ℕ) (C stage : ℚ) (A : Mat) (b : Vec) (r : ℕ),
        r ∉ cells →
        (RiverBC.apply ⟨cells, C, stage⟩ A b).1 r r = A r r
        ∧ (RiverBC.apply ⟨cells, C, stage⟩ A b).2 r = b r) := by
  refine ⟨?_, ?_, ?_, ?_⟩
  · intro cells stage conductance
    rfl
  · intro cells C stage A b r hr hnd
    have hcount : cells.count r = 1 := List.count_eq_one_of_mem hnd hr
    constructor
    · simp [RiverBC.apply, river_foldl_fst, hcount]
    · simp [RiverBC.apply, river_foldl_snd, hcount]
  · intro cells C stage A b r c hc
    simp [RiverBC.apply, river_foldl_fst, hc]
  · intro cells C stage A b r hr
    have hcount : cells.count r = 0 := List.count_eq_zero.mpr hr
    constructor
    · simp [RiverBC.apply, river_foldl_fst, hcount]
    · simp [RiverBC.apply, river_foldl_snd, hcount]

/-- Witness for C3 at a concrete river config and a concrete 2-cell
application. -/
theorem river_factory_typeerror_apply_ok_witness :
    BCFactory.create_river [0] (17 / 2) (1 / 10000)
      = .error "TypeError: RiverBC.init got an unexpected keyword argument stage"
    ∧ (RiverBC.apply ⟨[0], 2, 3⟩ (fun _ _ => 0) (fun _ => 0)).1 0 0 = 0 + 2
    ∧ (RiverBC.apply ⟨[0], 2, 3⟩ (fun _ _ => 0) (fun _ => 0)).1 0 1 = 0 :=
  ⟨river_factory_typeerror_apply_ok.1 [0] (17 / 2) (1 / 10000),
   (river_factory_typeerror_apply_ok.2.1 [0] 2 3 (fun _ _ => 0) (fun _ => 0) 0
      (by decide) (by decide)).1,
   river_factory_typeerror_apply_ok.2.2.1 [0] 2 3 (fun _ _ => 0) (fun _ => 0) 0 1
      (by decide)⟩

/-!
Schedule validation results (claim C6).  The dataclass constructors do
raise on degenerate parameters, but make_schedule wraps construction in
a try/except and silently falls back to a constant schedule.
-/

lemma sinusoidal_validate_error (s : SinusoidalSchedule) (h : s.period ≤ 0) :
    ∃ msg, s.validate = .error msg := by
  refine ⟨"SinusoidalSchedule: period must be greater than 0", ?_⟩
  unfold SinusoidalSchedule.validate
  rw [if_pos h]

lemma pulse_validate_error (s : PulseSchedule) (h : s.period ≤ 0) :
    ∃ msg, s.validate = .error msg := by
  refine ⟨"PulseSchedule: period must be greater than 0", ?_⟩
  unfold PulseSchedule.validate
  rw [if_pos h]

lemma step_validate_error (s : StepSchedule)
    (h : ∃ i, i + 1 < s.times.length ∧ s.times.getD (i + 1) 0 < s.times.getD i 0) :
    ∃ msg, s.validate = .error msg := by
  obtain ⟨i, hi, hlt⟩ := h
  have h1 : ¬ s.times.length = 0 := by omega
  have hany : (List.range (s.times.length - 1)).any
      (fun i => decide (s.times.getD (i + 1) 0 < s.times.getD i 0)) = true :=
    List.any_eq_true.mpr ⟨i, List.mem_range.mpr (by omega), by simpa using hlt⟩
  by_cases h2 : s.times.length ≠ s.rates.length
  · refine ⟨"StepSchedule: times and rates must have same length", ?_⟩
    unfold StepSchedule.validate
    rw [if_neg h1, if_pos h2]
  · refine ⟨"StepSchedule: times must be non-decreasing", ?_⟩
    unfold StepSchedule.validate
    rw [if_neg h1, if_neg h2, if_pos hany]

lemma make_schedule_sinusoidal_fallback (cfg : ScheduleConfig) (q p : ℚ)
    (hty : pyLower cfg.type = "sinusoidal") (hper : cfg.period = some p)
    (hle : p ≤ 0) :
    make_schedule (some cfg) q = .constant ⟨q⟩ := by
  cases hamp : cfg.Q_amp with
  | none => simp [make_schedule, hty, hamp]
  | some a =>
    obtain ⟨msg, hmsg⟩ :=
      sinusoidal_validate_error ⟨cfg.Q_mean.getD q, a, p, cfg.phase.getD 0⟩ hle
    simp [make_schedule, hty, hamp, hper, hmsg]

lemma make_schedule_pulse_fallback (cfg : ScheduleConfig) (q p : ℚ)
    (hty : pyLower cfg.type = "pulse") (hper : cfg.period = some p)
    (hle : p ≤ 0) :
    make_schedule (some cfg) q = .constant ⟨q⟩ := by
  cases hton : cfg.t_on with
  | none => simp [make_schedule, hty, hper, hton]
  | some a =>
    cases htoff : cfg.t_off with
    | none => simp [make_schedule, hty, hper, hton, htoff]
    | some b =>
      obtain ⟨msg, hmsg⟩ :=
        pulse_validate_error ⟨cfg.Q_on.getD q, cfg.Q_off.getD 0, p, a, b⟩ hle
      simp [make_schedule, hty, hper, hton, htoff, hmsg]

lemma make_schedule_step_fallback (cfg : ScheduleConfig) (q : ℚ)
    (hty : pyLower cfg.type = "step")
    (h : ∃ i, i + 1 < cfg.times.length ∧ cfg.times.getD (i + 1) 0 < cfg.times.getD i 0) :
    make_schedule (some cfg) q = .constant ⟨q⟩ := by
  obtain ⟨msg, hmsg⟩ := step_validate_error ⟨cfg.times, cfg.rates⟩ h
  simp [make_schedule, hty, hmsg]

/-- Degenerate sinusoidal config: period = -1 (and Q_amp present, so
the period is genuinely the failing parameter). -/
def sinusoidalBadCfg : ScheduleConfig :=
  ⟨"sinusoidal", none, [], [], none, none, none, none, none,
   some 1, some (-1), none, none, none, none, none⟩

/-- C6 counterexample: building a sinusoidal schedule with non-positive
period through the make_schedule factory does not raise; the factory
catches the constructor ValueError and returns ConstantSchedule of the
default rate. -/
theorem make_schedule_degenerate_does_not_raise :
    make_schedule (some sinusoidalBadCfg) 5 = .constant ⟨5⟩ :=
  make_schedule_sinusoidal_fallback sinusoidalBadCfg 5 (-1) (by decide) rfl
    (by norm_num)

/-- C6 amended: direct construction of a sinusoidal or pulse schedule
with non-positive period, or of a step schedule with a decreasing
adjacent breakpoint pair, raises ValueError in __post_init__; but when
such a schedule is built from a config dict through make_schedule, the
error is caught and the factory returns ConstantSchedule(default_q)
instead of raising. -/
theorem schedule_degenerate_construction (s1 : SinusoidalSchedule)
    (s2 : PulseSchedule) (s3 : StepSchedule) (cfg1 cfg2 cfg3 : ScheduleConfig)
    (q p1 p2 : ℚ)
    (h1 : s1.period ≤ 0) (h2 : s2.period ≤ 0)
    (h3 : ∃ i, i + 1 < s3.times.length ∧ s3.times.getD (i + 1) 0 < s3.times.getD i 0)
    (hty1 : pyLower cfg1.type = "sinusoidal") (hper1 : cfg1.period = some p1)
    (hle1 : p1 ≤ 0)
    (hty2 : pyLower cfg2.type = "pulse") (hper2 : cfg2.period = some p2)
    (hle2 : p2 ≤ 0)
    (hty3 : pyLower cfg3.type = "step")
    (h4 : ∃ i, i + 1 < cfg3.times.length ∧ cfg3.times.getD (i + 1) 0 < cfg3.times.getD i 0) :
    (∃ msg, s1.validate = .error msg)
    ∧ (∃ msg, s2.validate = .error msg)
    ∧ (∃ msg, s3.validate = .error msg)
    ∧ make_schedule (some cfg1) q = .constant ⟨q⟩
    ∧ make_schedule (some cfg2) q = .constant ⟨q⟩
    ∧ make_schedule (some cfg3) q = .constant ⟨q⟩ :=
  ⟨sinusoidal_validate_error s1 h1, pulse_validate_error s2 h2,
   step_validate_error s3 h3,
   make_schedule_sinusoidal_fallback cfg1 q p1 hty1 hper1 hle1,
   make_schedule_pulse_fallback cfg2 q p2 hty2 hper2 hle2,
   make_schedule_step_fallback cfg3 q hty3 h4⟩

/-- Degenerate pulse config: period = 0. -/
def pulseBadCfg : ScheduleConfig :=
  ⟨"pulse", none, [], [], none, none, none, none, none,
   none, some 0, none, none, none, some 1, some 2⟩

/-- Degenerate step config: breakpoints 3, 1 decrease. -/
def stepBadCfg : ScheduleConfig :=
  ⟨"step", none, [3, 1], [5, 6], none, none, none, none, none,
   none, none, none, none, none, none, none⟩

/-- Witness for C6 at concrete degenerate schedules and configs. -/
theorem schedule_degenerate_construction_witness :
    (∃ msg, SinusoidalSchedule.validate ⟨0, 1, -1, 0⟩ = .error msg)
    ∧ (∃ msg, PulseSchedule.validate ⟨1, 0, 0, 1, 2⟩ = .error msg)
    ∧ (∃ msg, StepSchedule.validate ⟨[3, 1], [5, 6]⟩ = .error msg)
    ∧ make_schedule (some sinusoidalBadCfg) 7 = .constant ⟨7⟩
    ∧ make_schedule (some pulseBadCfg) 7 = .constant ⟨7⟩
    ∧ make_schedule (some stepBadCfg) 7 = .constant ⟨7⟩ :=
  schedule_degenerate_construction ⟨0, 1, -1, 0⟩ ⟨1, 0, 0, 1, 2⟩ ⟨[3, 1], [5, 6]⟩
    sinusoidalBadCfg pulseBadCfg stepBadCfg 7 (-1) 0
    (by norm_num) (by norm_num)
    ⟨0, by decide⟩
    (by decide) rfl (by norm_num)
    (by decide) rfl (by norm_num)
    (by decide)
    ⟨0, by decide⟩

/-!
Step-schedule evaluation (claim C8): the countdown scan returns the
rate at the greatest index whose breakpoint time is at most t.
-/

lemma step_scan_greatest (times rates : List ℚ) (t : ℚ) :
    ∀ n, n ≤ times.length → 0 < n → times.getD 0 0 ≤ t →
      ∃ k, k < n ∧ times.getD k 0 ≤ t
        ∧ (∀ m, m < n → times.getD m 0 ≤ t → m ≤ k)
        ∧ StepSchedule.scan times rates t n = rates.getD k 0 := by
  intro n
  induction n with
  | zero => intro _ h0 _; exact absurd h0 (by omega)
  | succ n ih =>
    intro hle _ h0
    by_cases hn : times.getD n 0 ≤ t
    · refine ⟨n, by omega, hn, fun m hm _ => by omega, ?_⟩
      unfold StepSchedule.scan
      rw [if_pos hn]
    · have hnpos : 0 < n := by
        rcases Nat.eq_zero_or_pos n with h | h
        · subst h; exact absurd h0 hn
        · exact h
      obtain ⟨k, hk, hkt, hmax, hval⟩ := ih (by omega) hnpos h0
      refine ⟨k, by omega, hkt, ?_, ?_⟩
      · intro m hm hmt
        rcases Nat.lt_succ_iff_lt_or_eq.mp hm with h | h
        · exact hmax m h hmt
        · subst h; exact absurd hmt hn
      · unfold StepSchedule.scan
        rw [if_neg hn]
        exact hval

/-- C8: for a step schedule with non-decreasing breakpoint times and a
rates list of the same length, evaluation at t returns the first rate
for every t before the first breakpoint, and otherwise returns the rate
of a breakpoint achieving the latest breakpoint time that is at most t
(with between-duplicate ties resolved toward lower index at the first
breakpoint, as the code does). -/
theorem step_schedule_latest_breakpoint (s : StepSchedule) (t : ℚ)
    (hne : s.times ≠ [])
    (_hlen : s.times.length = s.rates.length)
    (hmono : ∀ k, k < s.times.length → ∀ m, m ≤ k →
      s.times.getD m 0 ≤ s.times.getD k 0) :
    (t < s.times.getD 0 0 → s.call t = s.rates.getD 0 0)
    ∧ (s.times.getD 0 0 ≤ t →
        ∃ k, k < s.times.length ∧ s.times.getD k 0 ≤ t
          ∧ (∀ m, m < s.times.length → s.times.getD m 0 ≤ t →
              s.times.getD m 0 ≤ s.times.getD k 0)
          ∧ s.call t = s.rates.getD k 0) := by
  have hlenpos : 0 < s.times.length := List.length_pos.mpr hne
  constructor
  · intro ht
    unfold StepSchedule.call
    rw [if_pos (le_of_lt ht)]
  · intro h0
    by_cases hfirst : t ≤ s.times.getD 0 0
    · refine ⟨0, hlenpos, h0, ?_, ?_⟩
      · intro m _ hmt
        exact hmt.trans hfirst
      · unfold StepSchedule.call
        rw [if_pos hfirst]
    · obtain ⟨k, hk, hkt, hmax, hval⟩ :=
        step_scan_greatest s.times s.rates t s.times.length le_rfl hlenpos h0
      refine ⟨k, hk, hkt, ?_, ?_⟩
      · intro m hm hmt
        exact hmono k hk m (hmax m hm hmt)
      · unfold StepSchedule.call
        rw [if_neg hfirst]
        exact hval

/-- Witness for C8 on the schedule with breakpoints [0, 10] and rates
[1, 2], evaluated at t = 5 and at t = -3. -/
theorem step_schedule_latest_breakpoint_witness :
    ((-3 : ℚ) < 0 → StepSchedule.call ⟨[0, 10], [1, 2]⟩ (-3) = 1)
    ∧ ((0 : ℚ) ≤ 5 →
        ∃ k, k < 2 ∧ [(0 : ℚ), 10].getD k 0 ≤ 5
          ∧ (∀ m, m < 2 → [(0 : ℚ), 10].getD m 0 ≤ 5 →
              [(0 : ℚ), 10].getD m 0 ≤ [(0 : ℚ), 10].getD k 0)
          ∧ StepSchedule.call ⟨[0, 10], [1, 2]⟩ 5 = [(1 : ℚ), 2].getD k 0) := by
  constructor
  · intro h
    exact (step_schedule_latest_breakpoint ⟨[0, 10], [1, 2]⟩ (-3) (by decide)
      (by decide) (by decide)).1 (by norm_num)
  · intro h
    exact (step_schedule_latest_breakpoint ⟨[0, 10], [1, 2]⟩ 5 (by decide)
      (by decide) (by decide)).2 (by norm_num)

/-!
Row-major index arithmetic shared by the two assemblers (claims C2 and
C9): encoding a cell (a, b) as a*cols + b and decoding by division and
remainder.
-/

lemma enc_div (a b cols : ℕ) (h : b < cols) : (a * cols + b) / cols = a := by
  have hc : 0 < cols := by omega
  rw [mul_comm, Nat.mul_add_div hc, Nat.div_eq_of_lt h]
  omega

lemma enc_mod (a b cols : ℕ) (h : b < cols) : (a * cols + b) % cols = b := by
  rw [mul_comm a cols, Nat.mul_add_mod, Nat.mod_eq_of_lt h]

lemma enc_lt (a b rows cols : ℕ) (ha : a < rows) (hb : b < cols) :
    a * cols + b < rows * cols := by
  calc a * cols + b < a * cols + cols := by omega
    _ = (a + 1) * cols := by ring
    _ ≤ rows * cols := Nat.mul_le_mul_right cols (by omega)

/-- C2 (amended): for neighboring active cells the transient assembler
puts minus the harmonic-mean conductance 2*T1*T2/(T1+T2)/d2 in the
off-diagonal entry (d the spacing along the axis), in both directions;
the steady-state assembler instead uses the harmonic mean
2*T1*T2/(T1+T2) of the cell transmissivities T = K*thickness with no
division by the squared spacing. -/
theorem conductance_harmonic_mean (m : MAModel) (ms : SSModel)
    (hp : ℕ → ℕ → ℚ) (i j x y : ℕ) :
    (j < m.ny → i + 1 < m.nx → m.active i j = true → m.active (i + 1) j = true →
      MatrixAssembly.build_conductance_matrix m (i * m.ny + j) ((i + 1) * m.ny + j)
        = -((2 * m.T i j * m.T (i + 1) j) / (m.T i j + m.T (i + 1) j) / (m.dx * m.dx)))
    ∧ (j + 1 < m.ny → i < m.nx → m.active i j = true → m.active i (j + 1) = true →
      MatrixAssembly.build_conductance_matrix m (i * m.ny + j) (i * m.ny + (j + 1))
        = -((2 * m.T i j * m.T i (j + 1)) / (m.T i j + m.T i (j + 1)) / (m.dy * m.dy)))
    ∧ (x + 1 < ms.nx → y < ms.ny →
      constant_head_value ms.boundaries x y = none →
      0 < ms.props.Kx x y * ssThickness ms hp x y →
      0 < ms.props.Kx (x + 1) y * ssThickness ms hp (x + 1) y →
      0 < ssThickness ms hp x y → 0 < ssThickness ms hp (x + 1) y →
      assemble_matrix_A ms hp (y * ms.nx + x) (y * ms.nx + x + 1)
        = -((2 * (ms.props.Kx x y * ssThickness ms hp x y)
              * (ms.props.Kx (x + 1) y * ssThickness ms hp (x + 1) y))
            / (ms.props.Kx x y * ssThickness ms hp x y
              + ms.props.Kx (x + 1) y * ssThickness ms hp (x + 1) y)))
    ∧ (x < ms.nx → y + 1 < ms.ny →
      constant_head_value ms.boundaries x y = none →
      0 < ms.props.Ky x y * ssThickness ms hp x y →
      0 < ms.props.Ky x (y + 1) * ssThickness ms hp x (y + 1) →
      0 < ssThickness ms hp x y → 0 < ssThickness ms hp x (y + 1) →
      assemble_matrix_A ms hp (y * ms.nx + x) (y * ms.nx + x + ms.nx)
        = -((2 * (ms.props.Ky x y * ssThickness ms hp x y)
              * (ms.props.Ky x (y + 1) * ssThickness ms hp x (y + 1)))
            / (ms.props.Ky x y * ssThickness ms hp x y
              + ms.props.Ky x (y + 1) * ssThickness ms hp x (y + 1)))) := by
  refine ⟨?_, ?_, ?_, ?_⟩
  · intro hj hi ha ha2
    have hny : 0 < m.ny := by omega
    have hk : i * m.ny + j < m.nx * m.ny := enc_lt i j m.nx m.ny (by omega) hj
    have hdiv : (i * m.ny + j) / m.ny = i := enc_div i j m.ny hj
    have hmod : (i * m.ny + j) % m.ny = j := enc_mod i j m.ny hj
    have e1 : (i + 1) * m.ny = i * m.ny + m.ny := by ring
    have hne_k : ¬ ((i + 1) * m.ny + j = i * m.ny + j) := by omega
    have hne_w : ¬ (0 < i ∧ m.active (i - 1) j = true
        ∧ (i + 1) * m.ny + j = (i - 1) * m.ny + j) := by
      rintro ⟨hP, -, hR⟩
      obtain ⟨i2, rfl⟩ : ∃ i2, i = i2 + 1 := ⟨i - 1, by omega⟩
      have e2 : (i2 + 1 + 1) * m.ny = (i2 + 1 - 1) * m.ny + 2 * m.ny := by
        simp only [Nat.add_sub_cancel]
        ring
      omega
    simp only [MatrixAssembly.build_conductance_matrix, hdiv, hmod,
      if_pos hk, if_pos ha, if_neg hne_k, if_neg hne_w,
      if_pos (⟨by omega, ha2⟩ : i < m.nx - 1 ∧ m.active (i + 1) j = true)]
    rw [if_pos (⟨by omega, ha2, trivial⟩ :
      i < m.nx - 1 ∧ m.active (i + 1) j = true ∧ True)]
  · intro hj hi ha ha2
    have hny : 0 < m.ny := by omega
    have hk : i * m.ny + j < m.nx * m.ny := enc_lt i j m.nx m.ny hi (by omega)
    have hdiv : (i * m.ny + j) / m.ny = i := enc_div i j m.ny (by omega)
    have hmod : (i * m.ny + j) % m.ny = j := enc_mod i j m.ny (by omega)
    have e1 : (i + 1) * m.ny = i * m.ny + m.ny := by ring
    have hne_k : ¬ (i * m.ny + (j + 1) = i * m.ny + j) := by omega
    have hne_w : ¬ (0 < i ∧ m.active (i - 1) j = true
        ∧ i * m.ny + (j + 1) = (i - 1) * m.ny + j) := by
      rintro ⟨hP, -, hR⟩
      obtain ⟨i2, rfl⟩ : ∃ i2, i = i2 + 1 := ⟨i - 1, by omega⟩
      have e2 : (i2 + 1) * m.ny = (i2 + 1 - 1) * m.ny + m.ny := by
        simp only [Nat.add_sub_cancel]
        ring
      omega
    have hne_e : ¬ (i < m.nx - 1 ∧ m.active (i + 1) j = true
        ∧ i * m.ny + (j + 1) = (i + 1) * m.ny + j) := by
      rintro ⟨-, -, hR⟩
      omega
    have hne_s : ¬ (0 < j ∧ m.active i (j - 1) = true
        ∧ i * m.ny + (j + 1) = i * m.ny + (j - 1)) := by
      rintro ⟨hP, -, hR⟩
      omega
    simp only [MatrixAssembly.build_conductance_matrix, hdiv, hmod,
      if_pos hk, if_pos ha, if_neg hne_k, if_neg hne_w, if_neg hne_e, if_neg hne_s,
      if_pos (⟨by omega, ha2⟩ : j < m.ny - 1 ∧ m.active i (j + 1) = true)]
    rw [if_pos (⟨by omega, ha2, trivial⟩ :
      j < m.ny - 1 ∧ m.active i (j + 1) = true ∧ True)]
  · intro hx hy hch hT1 hT2 ht1 ht2
    have hr : y * ms.nx + x < ms.nx * ms.ny := by
      rw [mul_comm ms.nx ms.ny]
      exact enc_lt y x ms.ny ms.nx hy (by omega)
    have hdiv : (y * ms.nx + x) / ms.nx = y := enc_div y x ms.nx (by omega)
    have hmod : (y * ms.nx + x) % ms.nx = x := enc_mod y x ms.nx (by omega)
    have htx : trans_x ms (ssThickness ms hp) x y ((x : ℤ) + 1)
        = 2 / (1 / (ms.props.Kx x y * ssThickness ms hp x y)
            + 1 / (ms.props.Kx (x + 1) y * ssThickness ms hp (x + 1) y)) := by
      unfold trans_x
      rw [if_neg (by omega)]
      have : ((x : ℤ) + 1).toNat = x + 1 := by omega
      rw [this, if_neg (by push_neg; exact ⟨ht1, ht2⟩)]
    unfold assemble_matrix_A
    rw [if_pos hr]
    simp only [hdiv, hmod, hch]
    rw [if_neg (by omega : ¬ (y * ms.nx + x + 1 = y * ms.nx + x)),
      if_neg (by rintro ⟨-, hR⟩; omega :
        ¬ (0 < x ∧ y * ms.nx + x + 1 + 1 = y * ms.nx + x)),
      if_pos (⟨by omega, trivial⟩ : x < ms.nx - 1 ∧ True),
      htx]
    rw [div_add_div _ _ (ne_of_gt hT1) (ne_of_gt hT2)]
    rw [div_div_eq_mul_div]
    field_simp
    ring
  · intro hx hy hch hT1 hT2 ht1 ht2
    have hnx : 0 < ms.nx := by omega
    have hr : y * ms.nx + x < ms.nx * ms.ny := by
      rw [mul_comm ms.nx ms.ny]
      exact enc_lt y x ms.ny ms.nx (by omega) hx
    have hdiv : (y * ms.nx + x) / ms.nx = y := enc_div y x ms.nx hx
    have hmod : (y * ms.nx + x) % ms.nx = x := enc_mod y x ms.nx hx
    have hty : trans_y ms (ssThickness ms hp) x y ((y : ℤ) + 1)
        = 2 / (1 / (ms.props.Ky x y * ssThickness ms hp x y)
            + 1 / (ms.props.Ky x (y + 1) * ssThickness ms hp x (y + 1))) := by
      unfold trans_y
      rw [if_neg (by omega)]
      have : ((y : ℤ) + 1).toNat = y + 1 := by omega
      rw [this, if_neg (by push_neg; exact ⟨ht1, ht2⟩)]
    unfold assemble_matrix_A
    rw [if_pos hr]
    simp only [hdiv, hmod, hch]
    rw [if_neg (by omega : ¬ (y * ms.nx + x + ms.nx = y * ms.nx + x)),
      if_neg (by rintro ⟨-, hR⟩; omega :
        ¬ (0 < x ∧ y * ms.nx + x + ms.nx + 1 = y * ms.nx + x)),
      if_neg (by rintro ⟨h1, hR⟩; omega :
        ¬ (x < ms.nx - 1 ∧ y * ms.nx + x + ms.nx = y * ms.nx + x + 1)),
      if_neg (by rintro ⟨-, hR⟩; omega :
        ¬ (0 < y ∧ y * ms.nx + x + ms.nx + ms.nx = y * ms.nx + x)),
      if_pos (⟨by omega, trivial⟩ : y < ms.ny - 1 ∧ True),
      hty]
    rw [div_add_div _ _ (ne_of_gt hT1) (ne_of_gt hT2)]
    rw [div_div_eq_mul_div]
    field_simp
    ring

/-- Transient assembly demo model: 2 x 2 grid, dx = 2, dy = 3,
transmissivity a + b + 1 at cell (a, b), all cells active. -/
def maDemo : MAModel :=
  ⟨2, 2, 2, 3, fun a b => (a : ℚ) + (b : ℚ) + 1, fun _ _ => true⟩

/-- Steady assembly demo model: 2 x 2 grid, unit conductivity and
thickness, confined, no boundaries and no wells. -/
def ssDemo : SSModel :=
  ⟨2, 2, 2, 3, ⟨fun _ _ => 1, fun _ _ => 1, 1, true⟩, [], []⟩

/-- Witness for C2 at cell (0, 0) of the demo models, east and north
neighbors in the transient assembler and east and north neighbors in
the steady-state assembler. -/
theorem conductance_harmonic_mean_witness :
    MatrixAssembly.build_conductance_matrix maDemo (0 * maDemo.ny + 0)
        ((0 + 1) * maDemo.ny + 0)
      = -((2 * maDemo.T 0 0 * maDemo.T (0 + 1) 0)
          / (maDemo.T 0 0 + maDemo.T (0 + 1) 0) / (maDemo.dx * maDemo.dx))
    ∧ MatrixAssembly.build_conductance_matrix maDemo (0 * maDemo.ny + 0)
        (0 * maDemo.ny + (0 + 1))
      = -((2 * maDemo.T 0 0 * maDemo.T 0 (0 + 1))
          / (maDemo.T 0 0 + maDemo.T 0 (0 + 1)) / (maDemo.dy * maDemo.dy))
    ∧ assemble_matrix_A ssDemo (fun _ _ => 0) (0 * ssDemo.nx + 0) (0 * ssDemo.nx + 0 + 1)
      = -((2 * (ssDemo.props.Kx 0 0 * ssThickness ssDemo (fun _ _ => 0) 0 0)
            * (ssDemo.props.Kx (0 + 1) 0 * ssThickness ssDemo (fun _ _ => 0) (0 + 1) 0))
          / (ssDemo.props.Kx 0 0 * ssThickness ssDemo (fun _ _ => 0) 0 0
            + ssDemo.props.Kx (0 + 1) 0 * ssThickness ssDemo (fun _ _ => 0) (0 + 1) 0))
    ∧ assemble_matrix_A ssDemo (fun _ _ => 0) (0 * ssDemo.nx + 0)
        (0 * ssDemo.nx + 0 + ssDemo.nx)
      = -((2 * (ssDemo.props.Ky 0 0 * ssThickness ssDemo (fun _ _ => 0) 0 0)
            * (ssDemo.props.Ky 0 (0 + 1) * ssThickness ssDemo (fun _ _ => 0) 0 (0 + 1)))
          / (ssDemo.props.Ky 0 0 * ssThickness ssDemo (fun _ _ => 0) 0 0
            + ssDemo.props.Ky 0 (0 + 1) * ssThickness ssDemo (fun _ _ => 0) 0 (0 + 1))) :=
  ⟨(conductance_harmonic_mean maDemo ssDemo (fun _ _ => 0) 0 0 0 0).1
      (by decide) (by decide) (by decide) (by decide),
   (conductance_harmonic_mean maDemo ssDemo (fun _ _ => 0) 0 0 0 0).2.1
      (by decide) (by decide) (by decide) (by decide),
   (conductance_harmonic_mean maDemo ssDemo (fun _ _ => 0) 0 0 0 0).2.2.1
      (by decide) (by decide) (by decide)
      (by norm_num [ssDemo, ssThickness]) (by norm_num [ssDemo, ssThickness])
      (by norm_num [ssDemo, ssThickness]) (by norm_num [ssDemo, ssThickness]),
   (conductance_harmonic_mean maDemo ssDemo (fun _ _ => 0) 0 0 0 0).2.2.2
      (by decide) (by decide) (by decide)
      (by norm_num [ssDemo, ssThickness]) (by norm_num [ssDemo, ssThickness])
      (by norm_num [ssDemo, ssThickness]) (by norm_num [ssDemo, ssThickness])⟩

/-- Steady model with non-unit spacing for the C2 counterexample: a
2 x 1 grid with dx = 2, unit conductivity and thickness. -/
def ssNoSpacingDemo : SSModel :=
  ⟨2, 1, 2, 2, ⟨fun _ _ => 1, fun _ _ => 1, 1, true⟩, [], []⟩

/-- C2 counterexample: on the 2 x 1 steady demo grid with spacing
dx = 2 and both cell transmissivities equal to 1, the assembled
off-diagonal entry between the neighboring cells is -1 (minus the bare
harmonic mean), not minus the claimed 2*T1*T2/(T1+T2)/dx^2 = 1/4; the
steady-state assembler never divides by the squared spacing. -/
theorem steady_conductance_misses_spacing :
    assemble_matrix_A ssNoSpacingDemo (fun _ _ => 0) 0 1 = -1
    ∧ -((2 * (1 : ℚ) * 1) / (1 + 1)
        / (ssNoSpacingDemo.dx * ssNoSpacingDemo.dx)) = -(1 / 4)
    ∧ (-1 : ℚ) ≠ -(1 / 4) := by
  refine ⟨?_, ?_, by norm_num⟩
  · norm_num [assemble_matrix_A, ssNoSpacingDemo, constant_head_value,
      ssThickness, trans_x, trans_y]
  · norm_num [ssNoSpacingDemo]

/-- C9: the steady-state pipeline flattens cell (i, j) to j*nx + i in
the well RHS builder and in the matrix/RHS assembly, and both linear
solvers invert exactly that map through reshape((ny, nx)).T, while the
transient pipeline reshapes and flattens with i*ny + j. -/
theorem flattening_convention (nx ny : ℕ) (w : SSWell) (m : SSModel)
    (hp : ℕ → ℕ → ℚ) (sp : Mat → Vec → Vec) (A : Mat) (b : Vec)
    (v : Vec) (f : ℕ → ℕ → ℚ) (i j : ℕ) (val : ℚ) :
    Well.get_rhs_contribution w nx (w.j * nx + w.i) = w.rate
    ∧ (∀ k, k ≠ w.j * nx + w.i → Well.get_rhs_contribution w nx k = 0)
    ∧ (i < m.nx → j < m.ny → constant_head_value m.boundaries i j = some val →
        assemble_matrix_A m hp (j * m.nx + i) (j * m.nx + i) = 1
        ∧ assemble_matrix_b_ch m (j * m.nx + i) = val)
    ∧ solve_direct sp A b nx i j = sp A b (j * nx + i)
    ∧ (solve_iterative A b nx ny).1 i j
        = (solve_iterative_flat A b nx ny).1 (j * nx + i)
    ∧ npReshape ny v i j = v (i * ny + j)
    ∧ (j < ny → npFlatten ny f (i * ny + j) = f i j) := by
  refine ⟨?_, ?_, ?_, rfl, rfl, rfl, ?_⟩
  · simp [Well.get_rhs_contribution]
  · intro k hk
    simp [Well.get_rhs_contribution, hk]
  · intro hi hj hch
    have hr : j * m.nx + i < m.nx * m.ny := by
      rw [mul_comm m.nx m.ny]
      exact enc_lt j i m.ny m.nx hj hi
    constructor
    · unfold assemble_matrix_A
      rw [if_pos hr]
      simp [enc_div j i m.nx hi, enc_mod j i m.nx hi, hch]
    · unfold assemble_matrix_b_ch
      rw [if_pos hr]
      simp only [enc_div j i m.nx hi, enc_mod j i m.nx hi, hch]
  · intro hj
    unfold npFlatten
    rw [enc_div i j ny hj, enc_mod i j ny hj]

/-- Steady model with one constant-head cell at (1, 1) for the C9
witness. -/
def ssChDemo : SSModel :=
  ⟨2, 2, 1, 1, ⟨fun _ _ => 1, fun _ _ => 1, 1, true⟩, [(1, 1, 9)], []⟩

/-- Witness for C9 at the well (i, j) = (1, 2) on nx = 2, the
constant-head cell (1, 1) of the demo model, and the transient
flattening at (1, 1) with ny = 3. -/
theorem flattening_convention_witness :
    Well.get_rhs_contribution ⟨1, 2, 5⟩ 2 (2 * 2 + 1) = 5
    ∧ Well.get_rhs_contribution ⟨1, 2, 5⟩ 2 0 = 0
    ∧ assemble_matrix_A ssChDemo (fun _ _ => 0) (1 * 2 + 1) (1 * 2 + 1) = 1
    ∧ assemble_matrix_b_ch ssChDemo (1 * 2 + 1) = 9
    ∧ npFlatten 3 (fun a b => (10 * (a : ℚ) + (b : ℚ))) (1 * 3 + 1)
        = 10 * (1 : ℚ) + 1 :=
  ⟨(flattening_convention 2 3 ⟨1, 2, 5⟩ ssChDemo (fun _ _ => 0)
      (fun _ _ => fun _ => 0) (fun _ _ => 0) (fun _ => 0) (fun _ => 0)
      (fun a b => (10 * (a : ℚ) + (b : ℚ))) 1 1 9).1,
   (flattening_convention 2 3 ⟨1, 2, 5⟩ ssChDemo (fun _ _ => 0)
      (fun _ _ => fun _ => 0) (fun _ _ => 0) (fun _ => 0) (fun _ => 0)
      (fun a b => (10 * (a : ℚ) + (b : ℚ))) 1 1 9).2.1 0 (by decide),
   ((flattening_convention 2 3 ⟨1, 2, 5⟩ ssChDemo (fun _ _ => 0)
      (fun _ _ => fun _ => 0) (fun _ _ => 0) (fun _ => 0) (fun _ => 0)
      (fun a b => (10 * (a : ℚ) + (b : ℚ))) 1 1 9).2.2.1 (by decide) (by decide)
      (by decide)).1,
   ((flattening_convention 2 3 ⟨1, 2, 5⟩ ssChDemo (fun _ _ => 0)
      (fun _ _ => fun _ => 0) (fun _ _ => 0) (fun _ => 0) (fun _ => 0)
      (fun a b => (10 * (a : ℚ) + (b : ℚ))) 1 1 9).2.2.1 (by decide) (by decide)
      (by decide)).2,
   (flattening_convention 2 3 ⟨1, 2, 5⟩ ssChDemo (fun _ _ => 0)
      (fun _ _ => fun _ => 0) (fun _ _ => 0) (fun _ => 0) (fun _ => 0)
      (fun a b => (10 * (a : ℚ) + (b : ℚ))) 1 1 9).2.2.2.2.2.2 (by decide)⟩

/-!
Except-monad success lemmas used for the Theis boundary update
(claim C10).
-/

lemma foldlM_ok_of_all_ok {α β : Type} (f : β → α → Except String β)
    (l : List α) (h : ∀ b a, a ∈ l → ∃ y, f b a = .ok y) :
    ∀ init, ∃ y, l.foldlM f init = .ok y := by
  induction l with
  | nil => intro init; exact ⟨init, rfl⟩
  | cons x xs ih =>
    intro init
    obtain ⟨y, hy⟩ := h init x (List.mem_cons_self x xs)
    obtain ⟨z, hz⟩ := ih (fun b a ha => h b a (List.mem_cons_of_mem x ha)) y
    refine ⟨z, ?_⟩
    rw [List.foldlM_cons, hy]
    simpa using hz

lemma mapM_ok_of_all_ok {α β : Type} (f : α → Except String β)
    (l : List α) (h : ∀ a ∈ l, ∃ y, f a = .ok y) :
    ∃ ys, l.mapM f = .ok ys := by
  induction l with
  | nil => exact ⟨[], rfl⟩
  | cons x xs ih =>
    obtain ⟨y, hy⟩ := h x (List.mem_cons_self x xs)
    obtain ⟨ys, hys⟩ := ih (fun a ha => h a (List.mem_cons_of_mem x ha))
    refine ⟨y :: ys, ?_⟩
    rw [List.mapM_cons, hy]
    show List.cons y <$> (xs.mapM f) = Except.ok (y :: ys)
    rw [hys]
    rfl

/-- C10: with positive grid spacings, TheisDirichletBC.update never
reaches the domain-error branches of theis_drawdown: at t <= 0 it
resets every boundary head to head0 without any drawdown call, and at
t > 0 every call gets radius max(r, 0.5*min(dx, dy)) > 0 and time
t > 0, so update always succeeds. -/
theorem theis_update_never_domain_error (hypot : ℚ → ℚ → ℚ)
    (wval : ℚ → ℚ → ℚ → ℚ → ℚ → ℚ) (bc : TheisDirichletBC)
    (hdx : 0 < bc.dx) (hdy : 0 < bc.dy) (t : ℚ) :
    (t ≤ 0 → TheisDirichletBC.update hypot wval bc t
      = .ok { bc with current_heads := List.replicate bc.cells.length bc.head0 })
    ∧ ∃ bc2, TheisDirichletBC.update hypot wval bc t = .ok bc2 := by
  have hreset : t ≤ 0 → TheisDirichletBC.update hypot wval bc t
      = .ok { bc with current_heads := List.replicate bc.cells.length bc.head0 } := by
    intro ht
    unfold TheisDirichletBC.update
    rw [if_pos ht]
  refine ⟨hreset, ?_⟩
  by_cases ht : t ≤ 0
  · exact ⟨_, hreset ht⟩
  · have hcell : ∀ ij ∈ bc.cell_coords,
        ∃ d, TheisDirichletBC.cell_drawdown hypot wval bc t ij = .ok d := by
      intro ij _
      unfold TheisDirichletBC.cell_drawdown
      apply foldlM_ok_of_all_ok
      intro acc well _
      have hmin : 0 < (1 : ℚ) / 2 * min bc.dx bc.dy := by
        have : 0 < min bc.dx bc.dy := lt_min hdx hdy
        positivity
      have hreff : ¬ (max (hypot (((ij.1 - well.1 : ℤ) : ℚ) * bc.dx)
            (((ij.2 - well.2.1 : ℤ) : ℚ) * bc.dy)) (1 / 2 * min bc.dx bc.dy) ≤ 0) := by
        push_neg
        exact lt_of_lt_of_le hmin (le_max_right _ _)
      refine ⟨acc + wval |well.2.2| bc.T bc.S
        (max (hypot (((ij.1 - well.1 : ℤ) : ℚ) * bc.dx)
          (((ij.2 - well.2.1 : ℤ) : ℚ) * bc.dy)) (1 / 2 * min bc.dx bc.dy)) t, ?_⟩
      simp only [theis_drawdown, if_neg ht, if_neg hreff]
      rfl
    obtain ⟨ys, hys⟩ := mapM_ok_of_all_ok
      (fun ij => do
        let d ← TheisDirichletBC.cell_drawdown hypot wval bc t ij
        pure (bc.head0 - d))
      bc.cell_coords
      (fun ij hij => by
        obtain ⟨d, hd⟩ := hcell ij hij
        refine ⟨bc.head0 - d, ?_⟩
        show (do
          let d2 ← TheisDirichletBC.cell_drawdown hypot wval bc t ij
          pure (bc.head0 - d2)) = Except.ok (bc.head0 - d)
        rw [hd]
        rfl)
    refine ⟨{ bc with current_heads := ys }, ?_⟩
    unfold TheisDirichletBC.update
    rw [if_neg ht]
    rw [hys]
    rfl

/-- Demo Theis boundary for the C10 witness: one boundary cell, one
well, unit spacings. -/
def theisDemoBC : TheisDirichletBC :=
  ⟨[0], [(0, 0)], [(1, 0, 5)], 1, 1, 1, 1, 9, [9]⟩

/-- Witness for C10 on the demo boundary, at t = -1 (reset branch) and
t = 1 (drawdown branch), with hypot and the well function instantiated
to simple total functions. -/
theorem theis_update_never_domain_error_witness :
    TheisDirichletBC.update (fun _ _ => 0) (fun _ _ _ _ _ => 1) theisDemoBC (-1)
      = .ok { theisDemoBC with
          current_heads := List.replicate theisDemoBC.cells.length theisDemoBC.head0 }
    ∧ ∃ bc2, TheisDirichletBC.update (fun _ _ => 0) (fun _ _ _ _ _ => 1)
        theisDemoBC 1 = .ok bc2 :=
  ⟨(theis_update_never_domain_error (fun _ _ => 0) (fun _ _ _ _ _ => 1)
      theisDemoBC (by norm_num [theisDemoBC]) (by norm_num [theisDemoBC]) (-1)).1
      (by norm_num),
   (theis_update_never_domain_error (fun _ _ => 0) (fun _ _ _ _ _ => 1)
      theisDemoBC (by norm_num [theisDemoBC]) (by norm_num [theisDemoBC]) 1).2⟩

/-!
Outer-loop exhaustion (claim C5).
-/

lemma ss_outer_loop_exhaust (spsolve : Mat → Vec → Vec) (norm2 : Vec → ℚ)
    (m : SSModel) (method : String) :
    ∀ (f : ℕ) (h0 : ℕ → ℕ → ℚ), 0 < f →
      (∀ n, n < f → ¬ diff2D m.nx m.ny
          ((ss_step_head spsolve m method)^[n + 1] h0)
          ((ss_step_head spsolve m method)^[n] h0) < 1 / 10 ^ 4) →
      (ss_outer_loop spsolve norm2 m method f h0).converged = false
      ∧ (ss_outer_loop spsolve norm2 m method f h0).head
          = (ss_step_head spsolve m method)^[f] h0 := by
  intro f
  induction f with
  | zero => intro h0 h; omega
  | succ f ih =>
    intro h0 _ hdiv
    have hd0 : ¬ diff2D m.nx m.ny (ss_step_head spsolve m method h0) h0
        < 1 / 10 ^ 4 := by
      have := hdiv 0 (by omega)
      simpa using this
    by_cases hf : f = 0
    · subst hf
      constructor
      · simp only [ss_outer_loop, if_neg hd0, if_pos rfl, if_true]
      · simp only [ss_outer_loop, if_neg hd0, if_pos rfl, if_true,
          Nat.zero_add, Function.iterate_one]
    · have hstep : ss_outer_loop spsolve norm2 m method (f + 1) h0
          = ss_outer_loop spsolve norm2 m method f (ss_step_head spsolve m method h0) := by
        simp only [ss_outer_loop]
        rw [if_neg hd0, if_neg hf]
      have ih2 := ih (ss_step_head spsolve m method h0) (by omega) (by
        intro n hn
        have := hdiv (n + 1) (by omega)
        simp only [Function.iterate_succ_apply] at this ⊢
        exact this)
      refine ⟨?_, ?_⟩
      · rw [hstep]
        exact ih2.1
      · rw [hstep, ih2.2, Function.iterate_succ_apply]

/-- C5: when every one of the 20 outer iterations still changes the
head by at least tol_outer, SteadyStateSolver.solve returns (rather
than raising) a result carrying the last computed head and
converged = false. -/
theorem steady_solve_exhaustion_returns (spsolve : Mat → Vec → Vec)
    (norm2 : Vec → ℚ) (m : SSModel) (method : String)
    (hm : pyLower method = "direct" ∨ pyLower method = "sor")
    (hdiv : ∀ n, n < 20 → ¬ diff2D m.nx m.ny
        (ss_iterate spsolve m (pyLower method) (n + 1))
        (ss_iterate spsolve m (pyLower method) n) < 1 / 10 ^ 4) :
    ∃ r : SSResult, SteadyStateSolver.solve spsolve norm2 m method = .ok r
      ∧ r.converged = false
      ∧ r.head = ss_iterate spsolve m (pyLower method) 20 := by
  have hiter : ∀ n, ss_iterate spsolve m (pyLower method) n
      = (ss_step_head spsolve m (pyLower method))^[n] (initial_head_guess m) := by
    intro n
    induction n with
    | zero => rfl
    | succ n ih => rw [ss_iterate, ih, Function.iterate_succ_apply']
  have hcond : ¬ ¬ (pyLower method = "direct" ∨ pyLower method = "sor") :=
    not_not_intro hm
  obtain ⟨hc, hh⟩ := ss_outer_loop_exhaust spsolve norm2 m (pyLower method) 20
    (initial_head_guess m) (by omega)
    (by
      intro n hn
      have := hdiv n hn
      rwa [hiter (n + 1), hiter n] at this)
  refine ⟨⟨(ss_outer_loop spsolve norm2 m (pyLower method) 20
      (initial_head_guess m)).converged,
    (ss_outer_loop spsolve norm2 m (pyLower method) 20
      (initial_head_guess m)).iterations,
    pyLower method,
    (ss_outer_loop spsolve norm2 m (pyLower method) 20
      (initial_head_guess m)).head,
    (ss_outer_loop spsolve norm2 m (pyLower method) 20
      (initial_head_guess m)).residual,
    (ss_outer_loop spsolve norm2 m (pyLower method) 20
      (initial_head_guess m)).notes⟩, ?_, hc, ?_⟩
  · unfold SteadyStateSolver.solve
    rw [if_neg hcond]
  · rw [hh, hiter 20]

/-- Unconfined 2 x 1 demo model for the C5 witness: no constant-head
boundaries, unit conductivity, BCF saturated-thickness correction
active. -/
def ssUnconfinedDemo : SSModel :=
  ⟨2, 1, 1, 1, ⟨fun _ _ => 1, fun _ _ => 1, 1, false⟩, [], []⟩

/-- External direct solver used in the C5 witness: returns the constant
field A[0,0] + 1, so the unconfined head keeps growing by 1 per outer
iteration and the loop can never satisfy the tolerance. -/
def spDemo : Mat → Vec → Vec := fun A _ => fun _ => A 0 0 + 1

lemma ssDemo_iterate (n : ℕ) :
    ss_iterate spDemo ssUnconfinedDemo "direct" n = fun _ _ => (10 : ℚ) + n := by
  induction n with
  | zero =>
    show initial_head_guess ssUnconfinedDemo = _
    funext a b
    simp [initial_head_guess, ssUnconfinedDemo]
  | succ n ih =>
    rw [ss_iterate, ih]
    funext a b
    have h0n : (0 : ℚ) ≤ n := Nat.cast_nonneg n
    have hTpos : (0 : ℚ) < 10 + n := by linarith
    have hth : ssThickness ssUnconfinedDemo (fun _ _ => (10 : ℚ) + n) 0 0
        = 10 + n := by
      unfold ssThickness
      rw [if_neg (by norm_num [ssUnconfinedDemo])]
      show max ((10 : ℚ) + n - 0) (1 / 10) = 10 + n
      rw [sub_zero]
      exact max_eq_left (by linarith)
    have hth1 : ssThickness ssUnconfinedDemo (fun _ _ => (10 : ℚ) + n) 1 0
        = 10 + n := by
      unfold ssThickness
      rw [if_neg (by norm_num [ssUnconfinedDemo])]
      show max ((10 : ℚ) + n - 0) (1 / 10) = 10 + n
      rw [sub_zero]
      exact max_eq_left (by linarith)
    have htx : trans_x ssUnconfinedDemo
        (ssThickness ssUnconfinedDemo (fun _ _ => (10 : ℚ) + n)) 0 0 1
        = 10 + n := by
      unfold trans_x
      rw [if_neg (by norm_num [ssUnconfinedDemo])]
      rw [if_neg (by
        push_neg
        show (0 : ℚ) < _ ∧ (0 : ℚ) < _
        constructor
        · show (0 : ℚ) < ssThickness ssUnconfinedDemo (fun _ _ => (10 : ℚ) + n) 0 0
          rw [hth]; linarith
        · show (0 : ℚ) < ssThickness ssUnconfinedDemo (fun _ _ => (10 : ℚ) + n)
            (Int.toNat 1) 0
          rw [show Int.toNat 1 = 1 from rfl, hth1]; linarith)]
      show 2 / (1 / (ssUnconfinedDemo.props.Kx 0 0
          * ssThickness ssUnconfinedDemo (fun _ _ => (10 : ℚ) + n) 0 0)
        + 1 / (ssUnconfinedDemo.props.Kx (Int.toNat 1) 0
          * ssThickness ssUnconfinedDemo (fun _ _ => (10 : ℚ) + n) (Int.toNat 1) 0))
        = 10 + n
      rw [show Int.toNat 1 = 1 from rfl, hth, hth1]
      show 2 / (1 / ((1 : ℚ) * (10 + n)) + 1 / ((1 : ℚ) * (10 + n))) = 10 + n
      rw [one_mul, div_add_div_same]
      rw [div_div_eq_mul_div]
      field_simp
      ring
    have hA : assemble_matrix_A ssUnconfinedDemo (fun _ _ => (10 : ℚ) + n) 0 0
        = trans_x ssUnconfinedDemo
            (ssThickness ssUnconfinedDemo (fun _ _ => (10 : ℚ) + n)) 0 0 (-1)
          + trans_x ssUnconfinedDemo
            (ssThickness ssUnconfinedDemo (fun _ _ => (10 : ℚ) + n)) 0 0 1
          + trans_y ssUnconfinedDemo
            (ssThickness ssUnconfinedDemo (fun _ _ => (10 : ℚ) + n)) 0 0 (-1)
          + trans_y ssUnconfinedDemo
            (ssThickness ssUnconfinedDemo (fun _ _ => (10 : ℚ) + n)) 0 0 1 := rfl
    have hz1 : trans_x ssUnconfinedDemo
        (ssThickness ssUnconfinedDemo (fun _ _ => (10 : ℚ) + n)) 0 0 (-1) = 0 := rfl
    have hz2 : trans_y ssUnconfinedDemo
        (ssThickness ssUnconfinedDemo (fun _ _ => (10 : ℚ) + n)) 0 0 (-1) = 0 := rfl
    have hz3 : trans_y ssUnconfinedDemo
        (ssThickness ssUnconfinedDemo (fun _ _ => (10 : ℚ) + n)) 0 0 1 = 0 := rfl
    have hval : ss_step_head spDemo ssUnconfinedDemo "direct"
        (fun _ _ => (10 : ℚ) + n) a b = 10 + ((n : ℚ) + 1) := by
      have hsd : ss_step_head spDemo ssUnconfinedDemo "direct"
          (fun _ _ => (10 : ℚ) + n) a b
          = assemble_matrix_A ssUnconfinedDemo (fun _ _ => (10 : ℚ) + n) 0 0 + 1 := rfl
      rw [hsd, hA, hz1, hz2, hz3, htx]
      ring
    rw [hval]
    push_cast
    ring

lemma diff2D_const (c1 c2 : ℚ) :
    diff2D 2 1 (fun _ _ => c1) (fun _ _ => c2) = |c1 - c2| := by
  unfold diff2D
  show (Finset.range 2).fold max 0 (fun _ => |c1 - c2|) = |c1 - c2|
  rw [Finset.range_succ, Finset.fold_insert (by simp), Finset.range_one,
    Finset.fold_singleton]
  have h1 : |c1 - c2| ⊔ (0 : ℚ) = |c1 - c2| := max_eq_left (abs_nonneg _)
  rw [h1, max_self]

/-- Witness for C5: on the unconfined 2 x 1 demo model with the
head-incrementing external solver, every outer iteration changes the
head by exactly 1, the 20-iteration budget is exhausted, and solve
returns converged = false with the 20th iterate. -/
theorem steady_solve_exhaustion_returns_witness :
    ∃ r : SSResult,
      SteadyStateSolver.solve spDemo (fun _ => 0) ssUnconfinedDemo "direct" = .ok r
      ∧ r.converged = false
      ∧ r.head = ss_iterate spDemo ssUnconfinedDemo (pyLower "direct") 20 :=
  steady_solve_exhaustion_returns spDemo (fun _ => 0) ssUnconfinedDemo "direct"
    (Or.inl (by decide))
    (by
      intro n hn
      rw [show pyLower "direct" = "direct" from by decide,
        ssDemo_iterate (n + 1), ssDemo_iterate n,
        show ssUnconfinedDemo.nx = 2 from rfl,
        show ssUnconfinedDemo.ny = 1 from rfl, diff2D_const]
      rw [show (10 : ℚ) + (n + 1 : ℕ) - (10 + n) = 1 by push_cast; ring]
      norm_num)

/-- C1: for every model and every run window with t_start < t_end, the
very first pass of the TransientSolver.run loop reaches the periodic
mass-balance print (step 0 satisfies step % 10 == 0) and stops with
the TypeError from calling the argumentless BudgetEngine.summarize
with five arguments, so run never returns the heads history. -/
theorem transient_run_raises_typeerror (linSolve : Mat → Vec → Vec)
    (m : TransientModel) (t_start t_end dt : ℚ) (h : t_start < t_end) :
    TransientSolver.run linSolve m t_start t_end dt
      = .error "TypeError: summarize() takes 1 positional argument but 6 were given" := by
  simp only [TransientSolver.run, TransientSolver.runAux]
  rw [if_pos h]
  norm_num

/-- One-cell demo transient model for the C1 witness. -/
def transientDemoModel : TransientModel :=
  ⟨1, 1, 1, 1, 1, 1, fun _ _ => 0, fun _ _ => true, [], none, []⟩

/-- Witness for C1 on the one-cell model over the window [0, 1) with
dt = 1. -/
theorem transient_run_raises_typeerror_witness :
    (0 : ℚ) < 1
    ∧ TransientSolver.run (fun _ b => b) transientDemoModel 0 1 1
      = .error "TypeError: summarize() takes 1 positional argument but 6 were given" :=
  ⟨by norm_num,
   transient_run_raises_typeerror (fun _ b => b) transientDemoModel 0 1 1
     (by norm_num)⟩

/-- Witness for C7 on the Dirichlet boundary with cells [0, 2] and
prescribed head 7, applied to a constant system. -/
theorem dirichlet_apply_rows_idempotent_witness :
    (∀ c, (DirichletBC.apply ⟨[0, 2], 7⟩ (fun _ _ => 3) (fun _ => 4)).1 0 c
      = if c = 0 then 1 else 0)
    ∧ (DirichletBC.apply ⟨[0, 2], 7⟩ (fun _ _ => 3) (fun _ => 4)).2 0 = 7
    ∧ (∀ c, (DirichletBC.apply ⟨[0, 2], 7⟩ (fun _ _ => 3) (fun _ => 4)).1 1 c = 3)
    ∧ (DirichletBC.apply ⟨[0, 2], 7⟩ (fun _ _ => 3) (fun _ => 4)).2 1 = 4 :=
  ⟨((dirichlet_apply_rows_idempotent ⟨[0, 2], 7⟩ (fun _ _ => 3) (fun _ => 4)).1 0
      (by decide)).1,
   ((dirichlet_apply_rows_idempotent ⟨[0, 2], 7⟩ (fun _ _ => 3) (fun _ => 4)).1 0
      (by decide)).2,
   fun c => ((dirichlet_apply_rows_idempotent ⟨[0, 2], 7⟩ (fun _ _ => 3)
      (fun _ => 4)).2.1 1 (by decide)).1 c,
   ((dirichlet_apply_rows_idempotent ⟨[0, 2], 7⟩ (fun _ _ => 3) (fun _ => 4)).2.1 1
      (by decide)).2⟩
